import Mathlib

/-!
Verification of the bytecode-compilation staleness resolver.

A shallow embedding of `compile_py_files` (and its helper `mtime`) from
`PyInstaller/utils/misc.py`, together with theorems settling the spec's
claims about it.

Paths, module names and file contents are modelled concretely:
a path is a list of characters, a file is a list of bytes together with a
modification time, and the file system is an explicit record threaded
through the resolver.  The external compiler service (`py_compile.compile`),
the magic-tag provider (`imp.get_magic()`) and the file-system primitives
(`os.stat`, `os.path.exists`, `open(...).read()`, `os.makedirs`) are not
part of the repository's source; they are modelled from the spec's
description of them as external collaborators.
-/

/-- Paths, dotted module names and type tags are character strings. -/
abbrev Str := List Char

/-- Convert a Lean string literal to the character-list representation. -/
def str (s : String) : Str := s.data

/-- One file on disk: its byte content and its integer modification time
(`os.stat(...)[8]`). -/
structure FileData where
  content : List Nat
  mt : Nat
deriving DecidableEq, Repr

/-- Modelled from the spec: the file-system state visible to the resolver.
`files` maps a path to its data (first binding wins), `dirs` lists the
directories that exist, `denied` lists paths whose metadata and content
cannot be accessed (e.g. permission denied on `stat`/`open`), `unwritable`
lists directory prefixes into which no file can be written, `badSyntax`
lists source paths that the external compiler rejects as malformed, and
`clock` supplies fresh modification times for newly written files. -/
structure FS where
  files : List (Str × FileData)
  dirs : List Str
  denied : List Str
  unwritable : List Str
  badSyntax : List Str
  clock : Nat
deriving DecidableEq, Repr

/-- Look a path up in the file table (first binding wins). -/
def lookupFile : List (Str × FileData) → Str → Option FileData
  | [], _ => none
  | (q, d) :: rest, p => if p = q then some d else lookupFile rest p

/-- Modelled from the spec: `os.stat(p)[8]`, failing (with any `OSError`,
not only file-not-found) when the path is absent or its metadata is
inaccessible. -/
def statMt (fs : FS) (p : Str) : Except Unit Nat :=
  if p ∈ fs.denied then .error ()
  else
    match lookupFile fs.files p with
    | some d => .ok d.mt
    | none => .error ()

/-- The helper `mtime` from `PyInstaller/utils/misc.py`: the stat mtime of a file,
with every stat failure mapped to `0` by the bare `except:` clause. -/
def mtime (fs : FS) (p : Str) : Nat :=
  match statMt fs p with
  | .ok t => t
  | .error _ => 0

/-- Modelled from the spec: `os.path.exists` — true when the path is an
accessible file or an existing directory. -/
def pathExistsF (fs : FS) (p : Str) : Bool :=
  decide (p ∉ fs.denied) && ((lookupFile fs.files p).isSome || decide (p ∈ fs.dirs))

/-- Errors that escape the resolver: a raw `IOError` (carrying the path of
the failing file operation) or a compiler failure that is not an
`IOError` (carrying the source path the compiler was given). -/
inductive Err where
  | ioError (p : Str)
  | compileError (p : Str)
deriving DecidableEq, Repr

/-- Modelled from the spec: `open(p, 'rb').read()` — the whole content of
the file, raising `IOError` when the file is absent or unreadable. -/
def readBytes (fs : FS) (p : Str) : Except Err (List Nat) :=
  if p ∈ fs.denied then .error (.ioError p)
  else
    match lookupFile fs.files p with
    | some d => .ok d.content
    | none => .error (.ioError p)

/-- Failure kinds of the external compiler service: an `IOError`
(e.g. permission denied, unreadable source) or a `SyntaxError`-class
failure for malformed source.  Each carries the offending path. -/
inductive PErr where
  | ioErr (p : Str)
  | synErr (p : Str)
deriving DecidableEq, Repr

/-- The resolver's configuration: whether the run uses the optimized
artifact convention (`sys.flags.optimize`) and the current compiler's
magic tag (`imp.get_magic()`). -/
structure Cfg where
  optimize : Bool
  magic : List Nat
deriving DecidableEq, Repr

/-- Write a file: fresh modification time from the clock, and the path
becomes accessible again (a newly created file is readable). -/
def writeFile (fs : FS) (dst : Str) (bs : List Nat) : FS :=
  { fs with
    files := (dst, ⟨bs, fs.clock⟩) :: fs.files
    denied := fs.denied.filter (fun q => q ≠ dst)
    clock := fs.clock + 1 }

/-- Is `dst` inside an unwritable directory? -/
def unwritableDst (fs : FS) (dst : Str) : Bool :=
  fs.unwritable.any (fun d => (d ++ ['/']).isPrefixOf dst)

/-- Modelled from the spec: the external compiler service
`py_compile.compile(src, dst)` (§6).  It fails with an `IOError` when the
source cannot be read or the destination directory is not writable, with a
`SyntaxError`-class error when the source is malformed, and otherwise
writes the compiled artifact — whose first four bytes are the current
magic tag — to `dst`. -/
def pyCompile (cfg : Cfg) (fs : FS) (src dst : Str) : Except PErr FS :=
  if src ∈ fs.denied then .error (.ioErr src)
  else if (lookupFile fs.files src).isSome = false then .error (.ioErr src)
  else if src ∈ fs.badSyntax then .error (.synErr src)
  else if unwritableDst fs dst then .error (.ioErr dst)
  else .ok (writeFile fs dst (cfg.magic ++ [0, 0, 0, 0]))

/-- Modelled from the spec: `os.makedirs`, treating an already existing
directory as success (§5). -/
def makedirsF (fs : FS) (p : Str) : FS :=
  if p ∈ fs.dirs then fs else { fs with dirs := p :: fs.dirs }

/-- The kind tag of code modules, `'PYMODULE'`. -/
def pymodule : Str := str "PYMODULE"

/-- The source suffix, `'.py'`. -/
def pySuffix : Str := str ".py"

/-- The package-initializer marker, `'__init__'`. -/
def initTag : Str := str "__init__"

/-- The side-cache directory name, `'localpycos'`. -/
def localpycos : Str := str "localpycos"

/-- Boolean prefix test on character lists. -/
def isPre : Str → Str → Bool
  | [], _ => true
  | _ :: _, [] => false
  | a :: as, b :: bs => if a = b then isPre as bs else false

/-- Python `p.endswith(s)`. -/
def endsWithS (p s : Str) : Bool := isPre s.reverse p.reverse

/-- Python substring test, `needle in hay`. -/
def hasSub (needle : Str) : Str → Bool
  | [] => isPre needle []
  | c :: t => isPre needle (c :: t) || hasSub needle t

/-- Python `nm.split(".")`. -/
def splitDots : Str → List Str
  | [] => [[]]
  | c :: rest =>
    if c = '.' then [] :: splitDots rest
    else
      match splitDots rest with
      | s :: ss => (c :: s) :: ss
      | [] => [[c]]

/-- Does the path begin with `'/'`? -/
def startsWithSlash (p : Str) : Bool := p.head? = some '/'

/-- Does the path end with `'/'`? -/
def endsWithSlash (p : Str) : Bool := p.getLast? = some '/'

/-- The rule of `os.path.join` on two components (POSIX). -/
def pathJoin2 (a b : Str) : Str :=
  if startsWithSlash b then b
  else if a.isEmpty || endsWithSlash a then a ++ b
  else a ++ ['/'] ++ b

/-- Left fold of `pathJoin2`, i.e. `os.path.join(a, *rest)`. -/
def pathJoinList (a : Str) (rest : List Str) : Str := rest.foldl pathJoin2 a

/-- The extension `os.path.splitext(p)[1]` (POSIX rule: the extension
starts at the last dot of the base name, unless only dots precede it
there). -/
def splitextExt (p : Str) : Str :=
  let base := (p.reverse.takeWhile (fun c => c ≠ '/')).reverse
  let revBase := base.reverse
  if '.' ∈ revBase then
    let extLen := (revBase.takeWhile (fun c => c ≠ '.')).length + 1
    if (base.take (base.length - extLen)).any (fun c => c ≠ '.') then
      base.drop (base.length - extLen)
    else []
  else []

/-- One manifest (TOC) entry: `(nm, fnm, typ)`. -/
structure Entry where
  nm : Str
  fnm : Str
  typ : Str
deriving DecidableEq, Repr

/-- The first artifact-suffix guess: `'o' if sys.flags.optimize else 'c'`. -/
def objSuffix1 (cfg : Cfg) : Str := if cfg.optimize then ['o'] else ['c']

/-- The fallback artifact-suffix guess: `'c' if sys.flags.optimize else 'o'`. -/
def objSuffix2 (cfg : Cfg) : Str := if cfg.optimize then ['c'] else ['o']

/-- Lines 198–209: derive `(src_fnm, obj_fnm)` from the entry's path.  A
`.py` path is the source and the artifact is guessed (falling back to the
other suffix convention when the guess does not exist on disk); any other
path is the artifact and the source is the path with its last character
dropped. -/
def derivePaths (cfg : Cfg) (fs : FS) (fnm : Str) : Str × Str :=
  if endsWithS fnm pySuffix then
    let src := fnm
    let obj1 := src ++ objSuffix1 cfg
    if pathExistsF fs obj1 then (src, obj1) else (src, src ++ objSuffix2 cfg)
  else
    (fnm.dropLast, fnm)

/-- Lines 218–221 (and 253–255): the staleness test.  `mtime(src) >
mtime(obj)` short-circuits; otherwise the artifact's first four bytes are
compared against the magic tag, and the unguarded `open` raises `IOError`
when the artifact cannot be read. -/
def needsCompile (cfg : Cfg) (fs : FS) (src obj : Str) : Except Err Bool :=
  if mtime fs src > mtime fs obj then .ok true
  else
    match readBytes fs obj with
    | .error e => .error e
    | .ok bs => .ok (bs.take 4 != cfg.magic)

/-- Lines 237–244: the redirected leading segments and module base name,
chosen by whether `"__init__"` occurs in the artifact path. -/
def redirectParts (nm objFnm : Str) : List Str × Str :=
  if hasSub initTag objFnm then
    (splitDots nm, initTag)
  else
    ((splitDots nm).dropLast, (splitDots nm).getLastD [])

/-- Lines 235–251: the redirected artifact path inside the side cache. -/
def redirectObjPath (basepath nm objFnm : Str) : Str :=
  let ext := splitextExt objFnm
  let parts := redirectParts nm objFnm
  pathJoin2 (pathJoinList basepath parts.1) (parts.2 ++ ext)

/-- Lines 248–249: `if not os.path.exists(leading): os.makedirs(leading)`. -/
def ensureDirF (fs : FS) (p : Str) : FS :=
  if pathExistsF fs p then fs else makedirsF fs p

/-- Lines 230–259: the `except IOError` handler — redirect into the side
cache, re-run the staleness test there, and (line 258) re-invoke the
compiler with the ORIGINAL `fnm` as destination, exactly as the source
does.  Results carry `(entry, fs, compiler invocations, successful
compilations)`. -/
def redirectStep (cfg : Cfg) (basepath : Str) (fs : FS) (nm fnm src obj typ : Str) :
    Except Err (Entry × FS × Nat × Nat) :=
  let leadingPath := pathJoinList basepath (redirectParts nm obj).1
  let fs1 := ensureDirF fs leadingPath
  let obj2 := redirectObjPath basepath nm obj
  match needsCompile cfg fs1 src obj2 with
  | .error e => .error e
  | .ok true =>
    match pyCompile cfg fs1 src fnm with
    | .ok fs2 => .ok (⟨nm, obj2, typ⟩, fs2, 2, 1)
    | .error (.ioErr p) => .error (.ioError p)
    | .error (.synErr p) => .error (.compileError p)
  | .ok false => .ok (⟨nm, obj2, typ⟩, fs1, 1, 0)

/-- Lines 222–259: the stale branch — try the in-place compile; an
`IOError` falls through to the side-cache redirect, any other compiler
failure propagates. -/
def compileStep (cfg : Cfg) (basepath : Str) (fs : FS) (nm fnm src obj typ : Str) :
    Except Err (Entry × FS × Nat × Nat) :=
  match pyCompile cfg fs src obj with
  | .ok fs1 => .ok (⟨nm, obj, typ⟩, fs1, 1, 1)
  | .error (.synErr p) => .error (.compileError p)
  | .error (.ioErr _) => redirectStep cfg basepath fs nm fnm src obj typ

/-- Lines 192–261: resolution of a single TOC entry. -/
def resolveEntry (cfg : Cfg) (basepath : Str) (fs : FS) (e : Entry) :
    Except Err (Entry × FS × Nat × Nat) :=
  if e.typ = pymodule then
    let src := (derivePaths cfg fs e.fnm).1
    let obj := (derivePaths cfg fs e.fnm).2
    match needsCompile cfg fs src obj with
    | .error e => .error e
    | .ok true => compileStep cfg basepath fs e.nm e.fnm src obj e.typ
    | .ok false => .ok (⟨e.nm, obj, e.typ⟩, fs, 0, 0)
  else .ok (e, fs, 0, 0)

/-- The entry-by-entry loop of `compile_py_files`. -/
def compileGo (cfg : Cfg) (basepath : Str) : List Entry → FS → Except Err (List Entry × FS × Nat × Nat)
  | [], fs => .ok ([], fs, 0, 0)
  | e :: rest, fs =>
    match resolveEntry cfg basepath fs e with
    | .error er => .error er
    | .ok (e2, fs2, c1, s1) =>
      match compileGo cfg basepath rest fs2 with
      | .error er => .error er
      | .ok (out, fs3, c2, s2) => .ok (e2 :: out, fs3, c1 + c2, s1 + s2)

/-- The resolver `compile_py_files(toc, workpath)` from `PyInstaller/utils/misc.py`,
returning the new TOC, the final file-system state, and the number of
compiler invocations and of successful compilations performed. -/
def compile_py_files (cfg : Cfg) (toc : List Entry) (workpath : Str) (fs : FS) :
    Except Err (List Entry × FS × Nat × Nat) :=
  compileGo cfg (pathJoin2 workpath localpycos) toc fs

/-! ## Concrete scenario states -/

/-- A magic tag of the usual four bytes. -/
def magic4 : List Nat := [3, 243, 13, 10]

/-- A configuration without the optimized convention and with `magic4`. -/
def cfgStd : Cfg := ⟨false, magic4⟩

/-- State for the read-only-tree scenario: only the source
`/ro/a/b.py` exists, `/ro` is unwritable, nothing else is present. -/
def roFs : FS :=
  ⟨[(str "/ro/a/b.py", ⟨[104, 105], 5⟩)], [], [], [str "/ro"], [], 10⟩

/-- State with no files at all. -/
def emptyFs : FS := ⟨[], [], [], [], [], 10⟩

/-- State for the populated-side-cache scenario: read-only source tree
plus a fresh, magic-matching artifact already in the cache. -/
def cacheFs : FS :=
  ⟨[(str "/ro/a/b.py", ⟨[104], 5⟩),
    (str "/tmp/build/localpycos/a/b.pyo", ⟨[3, 243, 13, 10, 0], 9⟩)],
   [str "/tmp/build/localpycos/a"], [], [str "/ro"], [], 10⟩

/-- State for the missing-source scenario: the source `/w/a/b.py` is
absent, a stale (wrong-magic) artifact sits next to it in a WRITABLE
directory, and the side cache is already populated. -/
def missingSrcFs : FS :=
  ⟨[(str "/w/a/b.pyc", ⟨[9, 9, 9, 9], 5⟩),
    (str "/tmp/build/localpycos/a/b.pyc", ⟨[3, 243, 13, 10, 0], 9⟩)],
   [str "/tmp/build/localpycos/a"], [], [], [], 10⟩

/-- State for the `__init__`-substring scenario: a module whose FILE name
merely contains `__init__`, with a stale in-place artifact, a read-only
source tree and a populated side cache. -/
def initSubFs : FS :=
  ⟨[(str "/ro/pkg/my__init__util.py", ⟨[104], 3⟩),
    (str "/ro/pkg/my__init__util.pyc", ⟨[9, 9, 9, 9], 5⟩),
    (str "/tmp/build/localpycos/pkg/mymod/__init__.pyc", ⟨[3, 243, 13, 10, 0], 9⟩)],
   [str "/tmp/build/localpycos/pkg/mymod"], [], [str "/ro"], [], 10⟩

/-! ## Claim theorems: concrete scenarios -/

/-- C1 (code bug): on the spec's scenario — manifest
`[("a.b", "/ro/a/b.py", PYMODULE)]`, `/ro` not writable, no artifact
anywhere, workRoot `/tmp/build` — the code does NOT return the redirected
manifest and does NOT create the cache artifact: line 258 re-invokes the
compiler with the ORIGINAL read-only destination `fnm`, so the whole call
raises `IOError` for `/ro/a/b.py`.  (Note also that with no artifact
present the suffix fallback of lines 203–205 would have named the
artifact `b.pyo`, not the claimed `b.pyc`.) -/
theorem c1_scenario_raises_ioerror :
    compile_py_files cfgStd [⟨str "a.b", str "/ro/a/b.py", pymodule⟩] (str "/tmp/build") roFs
      = .error (.ioError (str "/ro/a/b.py")) := rfl

/-- C3 (code bug): with the artifact missing AND the source mtime equal
to 0 (here: the source is missing too), the staleness test of lines
218–221 does not evaluate to true — its unguarded `open(obj_fnm, 'rb')`
raises `IOError` out of `compile_py_files` instead of triggering a
recompilation. -/
theorem c3_missing_artifact_mtime0_raises :
    compile_py_files cfgStd [⟨str "m", str "/x/m.py", pymodule⟩] (str "/tmp/build") emptyFs
      = .error (.ioError (str "/x/m.pyo")) := rfl

/-- C10 (confirmed): the package-initializer rule is keyed on the
substring `"__init__"` occurring in the ARTIFACT PATH, not on the dotted
name: the module `pkg.mymod`, whose file is `my__init__util.py`, is
redirected under the initializer rule to
`<workRoot>/localpycos/pkg/mymod/__init__.pyc`. -/
theorem c10_init_substring_rule :
    compile_py_files cfgStd
        [⟨str "pkg.mymod", str "/ro/pkg/my__init__util.py", pymodule⟩]
        (str "/tmp/build") initSubFs
      = .ok ([⟨str "pkg.mymod", str "/tmp/build/localpycos/pkg/mymod/__init__.pyc", pymodule⟩],
          initSubFs, 1, 0) := rfl

/-- C2 (counterexample): against a read-only source tree with a populated
side cache, a run of `compile_py_files` completes, CHANGES NOTHING
(the final state equals the initial state), and still performs ONE
compiler invocation (the failing in-place attempt).  A second run in
succession is therefore the very same computation and also performs one
compiler invocation — not the zero invocations the claim requires. -/
theorem c2_second_run_invokes_compiler :
    compile_py_files cfgStd [⟨str "a.b", str "/ro/a/b.py", pymodule⟩] (str "/tmp/build") cacheFs
        = .ok ([⟨str "a.b", str "/tmp/build/localpycos/a/b.pyo", pymodule⟩], cacheFs, 1, 0)
      ∧ (1 : Nat) ≠ 0 :=
  ⟨rfl, one_ne_zero⟩

/-- C6 (counterexample): a compile failure whose `IOError` has nothing to
do with the destination (here: the SOURCE `/w/a/b.py` is missing while the
destination directory is perfectly writable — `unwritable` is empty) STILL
triggers the redirect into the side cache and is not surfaced as a fatal
error: the run succeeds with the redirected entry. -/
theorem c6_nonpermission_ioerror_redirects :
    compile_py_files cfgStd [⟨str "a.b", str "/w/a/b.py", pymodule⟩] (str "/tmp/build") missingSrcFs
      = .ok ([⟨str "a.b", str "/tmp/build/localpycos/a/b.pyc", pymodule⟩], missingSrcFs, 1, 0) := rfl

/-! ## Claim theorems: the mtime helper and the staleness test -/

/-- C9 (confirmed): the `mtime` helper maps EVERY stat failure — missing
file or inaccessible metadata alike — to `0`; consequently a source whose
stat fails never, by itself, makes an existing magic-matching artifact
stale. -/
theorem c9_stat_failure_maps_to_zero (cfg : Cfg) (fs : FS) (src obj : Str) (d : FileData)
    (hstat : statMt fs src = .error ())
    (hobj : lookupFile fs.files obj = some d)
    (hnd : obj ∉ fs.denied)
    (hmagic : d.content.take 4 = cfg.magic) :
    (∀ (g : FS) (p : Str), statMt g p = .error () → mtime g p = 0) ∧
      mtime fs src = 0 ∧ needsCompile cfg fs src obj = .ok false := by
  have hz : ∀ (g : FS) (p : Str), statMt g p = .error () → mtime g p = 0 := by
    intro g p h
    simp [mtime, h]
  refine ⟨hz, hz fs src hstat, ?_⟩
  simp [needsCompile, hz fs src hstat, readBytes, hnd, hobj, hmagic]

/-- State with a stat-denied (but present) source next to a fresh,
magic-matching artifact. -/
def deniedSrcFs : FS :=
  ⟨[(str "/x/m.py", ⟨[1], 7⟩), (str "/x/m.pyc", ⟨[3, 243, 13, 10, 0], 5⟩)],
   [], [str "/x/m.py"], [], [], 10⟩

/-- Witness for C9 at a permission-denied source. -/
theorem c9_witness :
    mtime deniedSrcFs (str "/x/m.py") = 0 ∧
      needsCompile cfgStd deniedSrcFs (str "/x/m.py") (str "/x/m.pyc") = .ok false :=
  (c9_stat_failure_maps_to_zero cfgStd deniedSrcFs (str "/x/m.py") (str "/x/m.pyc")
    ⟨[3, 243, 13, 10, 0], 5⟩ rfl rfl (by decide) rfl).2

/-- C4 (confirmed): an artifact that exists and is at least as new as its
source but whose first four bytes differ from the current magic tag makes
the staleness test true, and the resolver proceeds to the compile step. -/
theorem c4_wrong_magic_triggers_recompile (cfg : Cfg) (bp : Str) (fs : FS) (e : Entry)
    (src obj : Str) (d : FileData)
    (htyp : e.typ = pymodule)
    (hder : derivePaths cfg fs e.fnm = (src, obj))
    (hobj : lookupFile fs.files obj = some d)
    (hnd : obj ∉ fs.denied)
    (hmt : mtime fs src ≤ mtime fs obj)
    (hmagic : d.content.take 4 ≠ cfg.magic) :
    needsCompile cfg fs src obj = .ok true ∧
      resolveEntry cfg bp fs e = compileStep cfg bp fs e.nm e.fnm src obj e.typ := by
  have hng := not_lt.mpr hmt
  have hnc : needsCompile cfg fs src obj = .ok true := by
    simp [needsCompile, hng, readBytes, hnd, hobj, bne_iff_ne, hmagic]
  have h1 : (derivePaths cfg fs e.fnm).1 = src := by rw [hder]
  have h2 : (derivePaths cfg fs e.fnm).2 = obj := by rw [hder]
  exact ⟨hnc, by simp [resolveEntry, htyp, h1, h2, hnc]⟩

/-- State with a source older than its wrong-magic artifact. -/
def wrongMagicFs : FS :=
  ⟨[(str "/x/m.py", ⟨[1], 3⟩), (str "/x/m.pyc", ⟨[9, 9, 9, 9], 5⟩)],
   [], [], [], [], 10⟩

/-- Witness for C4 at a newer-but-wrong-magic artifact. -/
theorem c4_witness :
    needsCompile cfgStd wrongMagicFs (str "/x/m.py") (str "/x/m.pyc") = .ok true ∧
      resolveEntry cfgStd (str "/tmp/build/localpycos") wrongMagicFs
          ⟨str "m", str "/x/m.pyc", pymodule⟩
        = compileStep cfgStd (str "/tmp/build/localpycos") wrongMagicFs
            (str "m") (str "/x/m.pyc") (str "/x/m.py") (str "/x/m.pyc") pymodule :=
  c4_wrong_magic_triggers_recompile cfgStd (str "/tmp/build/localpycos") wrongMagicFs
    ⟨str "m", str "/x/m.pyc", pymodule⟩ (str "/x/m.py") (str "/x/m.pyc")
    ⟨[9, 9, 9, 9], 5⟩ rfl rfl rfl (by decide) (by decide) (by decide)

/-- C8 (confirmed): an artifact-shaped entry whose derived source is not
newer and whose artifact carries the current magic tag is emitted with its
path unchanged, with no compiler invocation and no change to the file
system. -/
theorem c8_fresh_artifact_passthrough (cfg : Cfg) (bp : Str) (fs : FS) (nm fnm : Str) (d : FileData)
    (hnpy : endsWithS fnm pySuffix = false)
    (hobj : lookupFile fs.files fnm = some d)
    (hnd : fnm ∉ fs.denied)
    (hmt : mtime fs fnm.dropLast ≤ mtime fs fnm)
    (hmagic : d.content.take 4 = cfg.magic) :
    resolveEntry cfg bp fs ⟨nm, fnm, pymodule⟩ = .ok (⟨nm, fnm, pymodule⟩, fs, 0, 0) := by
  have hng := not_lt.mpr hmt
  simp [resolveEntry, derivePaths, hnpy, needsCompile, hng, readBytes, hnd, hobj, hmagic]

/-- State with an up-to-date, magic-matching artifact next to its source. -/
def freshFs : FS :=
  ⟨[(str "/x/m.py", ⟨[1], 3⟩), (str "/x/m.pyc", ⟨[3, 243, 13, 10, 0], 5⟩)],
   [], [], [], [], 10⟩

/-- Witness for C8 at an artifact-shaped entry with a fresh artifact. -/
theorem c8_witness :
    resolveEntry cfgStd (str "/tmp/build/localpycos") freshFs
        ⟨str "m", str "/x/m.pyc", pymodule⟩
      = .ok (⟨str "m", str "/x/m.pyc", pymodule⟩, freshFs, 0, 0) :=
  c8_fresh_artifact_passthrough cfgStd (str "/tmp/build/localpycos") freshFs
    (str "m") (str "/x/m.pyc") ⟨[3, 243, 13, 10, 0], 5⟩
    rfl rfl (by decide) (by decide) rfl

/-- C6 (amended, theorem): once an entry is stale, ANY `IOError` from the
compile attempt — whatever its cause — sends the resolver into the
side-cache redirect step, while any non-`IOError` compiler failure
propagates to the caller as the compiler's own error, carrying the source
path (not the module name). -/
theorem c6_amended_failure_dispatch (cfg : Cfg) (bp : Str) (fs : FS) (e : Entry)
    (src obj : Str)
    (htyp : e.typ = pymodule)
    (hder : derivePaths cfg fs e.fnm = (src, obj))
    (hstale : needsCompile cfg fs src obj = .ok true) :
    (∀ p, pyCompile cfg fs src obj = .error (.synErr p) →
        resolveEntry cfg bp fs e = .error (.compileError p)) ∧
      (∀ p, pyCompile cfg fs src obj = .error (.ioErr p) →
        resolveEntry cfg bp fs e = redirectStep cfg bp fs e.nm e.fnm src obj e.typ) := by
  have h1 : (derivePaths cfg fs e.fnm).1 = src := by rw [hder]
  have h2 : (derivePaths cfg fs e.fnm).2 = obj := by rw [hder]
  constructor
  · intro p hp
    simp [resolveEntry, htyp, h1, h2, hstale, compileStep, hp]
  · intro p hp
    simp [resolveEntry, htyp, h1, h2, hstale, compileStep, hp]

/-- State with a malformed source (rejected by the compiler) and a stale
wrong-magic artifact. -/
def badSynFs : FS :=
  ⟨[(str "/x/m.py", ⟨[1], 3⟩), (str "/x/m.pyc", ⟨[9, 9, 9, 9], 5⟩)],
   [], [], [], [str "/x/m.py"], 10⟩

/-- Witness for the amended C6: a syntax-style failure propagates as the
compiler's error on the source path. -/
theorem c6_amended_witness :
    resolveEntry cfgStd (str "/tmp/build/localpycos") badSynFs
        ⟨str "m", str "/x/m.pyc", pymodule⟩
      = .error (.compileError (str "/x/m.py")) :=
  (c6_amended_failure_dispatch cfgStd (str "/tmp/build/localpycos") badSynFs
      ⟨str "m", str "/x/m.pyc", pymodule⟩ (str "/x/m.py") (str "/x/m.pyc")
      rfl rfl rfl).1 (str "/x/m.py") rfl

/-! ## Claim theorems: non-code passthrough -/

/-- Entries whose kind is not `PYMODULE` are returned unchanged with no
compiler activity and no change to the file system. -/
theorem resolveEntry_noncode (cfg : Cfg) (bp : Str) (fs : FS) (e : Entry)
    (h : e.typ ≠ pymodule) : resolveEntry cfg bp fs e = .ok (e, fs, 0, 0) := by
  simp [resolveEntry, h]

/-- The loop preserves length and passes non-code entries through at
their positions. -/
theorem compileGo_noncode (cfg : Cfg) (bp : Str) :
    ∀ (toc : List Entry) (fs : FS) (out : List Entry) (fs1 : FS) (c s : Nat),
      compileGo cfg bp toc fs = .ok (out, fs1, c, s) →
      out.length = toc.length ∧
        ∀ (i : Nat) (h1 : i < toc.length) (h2 : i < out.length),
          (toc.get ⟨i, h1⟩).typ ≠ pymodule → out.get ⟨i, h2⟩ = toc.get ⟨i, h1⟩ := by
  intro toc
  induction toc with
  | nil =>
    intro fs out fs1 c s h
    simp [compileGo] at h
    obtain ⟨h1, -⟩ := h
    subst h1
    exact ⟨rfl, fun i h1 => absurd h1 (Nat.not_lt_zero i)⟩
  | cons e rest ih =>
    intro fs out fs1 c s h
    unfold compileGo at h
    cases hre : resolveEntry cfg bp fs e with
    | error er => rw [hre] at h; exact absurd h (by simp)
    | ok r =>
      obtain ⟨e2, fs2, c1, s1⟩ := r
      rw [hre] at h
      dsimp only at h
      cases hgo : compileGo cfg bp rest fs2 with
      | error er => rw [hgo] at h; exact absurd h (by simp)
      | ok r2 =>
        obtain ⟨out2, fs3, c2, s2⟩ := r2
        rw [hgo] at h
        dsimp only at h
        simp only [Except.ok.injEq, Prod.mk.injEq] at h
        obtain ⟨hout, -, -, -⟩ := h
        subst hout
        have ihr := ih fs2 out2 fs3 c2 s2 hgo
        refine ⟨by simp [ihr.1], ?_⟩
        intro i h1 h2 hne
        cases i with
        | zero =>
          simp only [List.get] at hne ⊢
          have he : e2 = e := by
            rw [resolveEntry_noncode cfg bp fs e hne] at hre
            exact (by simpa using hre.symm : e2 = e ∧ fs2 = fs ∧ c1 = 0 ∧ s1 = 0).1
          simpa using he
        | succ j =>
          simp only [List.get] at hne ⊢
          exact ihr.2 j (Nat.lt_of_succ_lt_succ h1) (Nat.lt_of_succ_lt_succ h2) hne

/-- C7 (confirmed): in any successful run, every entry whose kind is not
`PYMODULE` appears in the output manifest identical to the input entry and
at the same position, whatever the file-system state. -/
theorem c7_noncode_passthrough (cfg : Cfg) (toc : List Entry) (wp : Str) (fs : FS)
    (out : List Entry) (fs1 : FS) (c s : Nat)
    (h : compile_py_files cfg toc wp fs = .ok (out, fs1, c, s)) :
    out.length = toc.length ∧
      ∀ (i : Nat) (h1 : i < toc.length) (h2 : i < out.length),
        (toc.get ⟨i, h1⟩).typ ≠ pymodule → out.get ⟨i, h2⟩ = toc.get ⟨i, h1⟩ :=
  compileGo_noncode cfg (pathJoin2 wp localpycos) toc fs out fs1 c s h

/-- A two-entry manifest with a data entry and a code entry. -/
def tocW : List Entry :=
  [⟨str "d", str "/x/data.txt", str "DATA"⟩, ⟨str "m", str "/x/m.py", pymodule⟩]

/-- Output of `tocW` against `freshFs`: the code entry's path moves to the
artifact, the data entry is untouched. -/
def outW : List Entry :=
  [⟨str "d", str "/x/data.txt", str "DATA"⟩, ⟨str "m", str "/x/m.pyc", pymodule⟩]

/-- Witness for C7: the data entry of `tocW` passes through unchanged at
position 0 even though the code entry's path is rewritten. -/
theorem c7_witness :
    outW.length = tocW.length ∧
      outW.get ⟨0, by decide⟩ = tocW.get ⟨0, by decide⟩ := by
  have h := c7_noncode_passthrough cfgStd tocW (str "/tmp/build") freshFs outW freshFs 0 0 rfl
  exact ⟨h.1, h.2 0 (by decide) (by decide) (by decide)⟩

/-! ## Claim theorems: redirect naming -/

/-- A well-shaped path segment: nonempty, with no leading or trailing
slash. -/
abbrev segOk (s : Str) : Prop :=
  s ≠ [] ∧ startsWithSlash s = false ∧ endsWithSlash s = false

/-- Appending a nonempty component keeps its last character. -/
theorem endsWithSlash_append (a b : Str) (hb : b ≠ []) :
    endsWithSlash (a ++ b) = endsWithSlash b := by
  unfold endsWithSlash
  rw [List.getLast?_append]
  cases hgb : b.getLast? with
  | none => exact absurd (List.getLast?_eq_none_iff.mp hgb) hb
  | some c => rfl

/-- Appending after a nonempty component keeps its first character. -/
theorem startsWithSlash_append_left (a b : Str) (ha : a ≠ []) :
    startsWithSlash (a ++ b) = startsWithSlash a := by
  unfold startsWithSlash
  rw [List.head?_append]
  cases a with
  | nil => exact absurd rfl ha
  | cons c t => rfl

/-- The generic join case: a nonempty base without a trailing slash and a
component without a leading slash are joined with a separator. -/
theorem pathJoin2_std (a b : Str) (ha1 : a ≠ []) (ha2 : endsWithSlash a = false)
    (hb : startsWithSlash b = false) : pathJoin2 a b = a ++ ['/'] ++ b := by
  unfold pathJoin2
  rw [hb, ha2]
  simp [List.isEmpty_iff, ha1]

/-- C5 (confirmed): redirected paths are computed from the dotted name —
a leaf module `p.q.r` goes to `<workRoot>/localpycos/p/q/r<ext>` and a
package initializer `p2.q2` goes to
`<workRoot>/localpycos/p2/q2/__init__<ext2>`, with `ext`/`ext2` the
artifact suffix of the original artifact path. -/
theorem c5_redirect_naming (workRoot nm nm2 obj obj2 ext ext2 p q r p2 q2 : Str)
    (hwr1 : workRoot ≠ []) (hwr2 : endsWithSlash workRoot = false)
    (hsplit : splitDots nm = [p, q, r])
    (hsplit2 : splitDots nm2 = [p2, q2])
    (hni : hasSub initTag obj = false)
    (hini : hasSub initTag obj2 = true)
    (hext : splitextExt obj = ext)
    (hext2 : splitextExt obj2 = ext2)
    (hp : segOk p) (hq : segOk q) (hr : segOk r) (hp2 : segOk p2) (hq2 : segOk q2) :
    redirectObjPath (pathJoin2 workRoot localpycos) nm obj
        = workRoot ++ ['/'] ++ localpycos ++ ['/'] ++ p ++ ['/'] ++ q ++ ['/'] ++ r ++ ext ∧
      redirectObjPath (pathJoin2 workRoot localpycos) nm2 obj2
        = workRoot ++ ['/'] ++ localpycos ++ ['/'] ++ p2 ++ ['/'] ++ q2 ++ ['/']
            ++ initTag ++ ext2 := by
  have hlpne : localpycos ≠ [] := by decide
  have hbp : pathJoin2 workRoot localpycos = workRoot ++ ['/'] ++ localpycos :=
    pathJoin2_std workRoot localpycos hwr1 hwr2 (by decide)
  have hbpne : workRoot ++ ['/'] ++ localpycos ≠ [] := by
    simp [List.append_eq_nil]
  have hbpe : endsWithSlash (workRoot ++ ['/'] ++ localpycos) = false := by
    rw [endsWithSlash_append _ _ hlpne]
    decide
  constructor
  · have hparts : redirectParts nm obj = ([p, q], r) := by
      simp [redirectParts, hni, hsplit]
    have hj1 : pathJoin2 (workRoot ++ ['/'] ++ localpycos) p
        = workRoot ++ ['/'] ++ localpycos ++ ['/'] ++ p :=
      pathJoin2_std _ p hbpne hbpe hp.2.1
    have hj1ne : workRoot ++ ['/'] ++ localpycos ++ ['/'] ++ p ≠ [] := by
      simp [List.append_eq_nil, hp.1]
    have hj1e : endsWithSlash (workRoot ++ ['/'] ++ localpycos ++ ['/'] ++ p) = false := by
      rw [endsWithSlash_append _ _ hp.1]
      exact hp.2.2
    have hj2 : pathJoin2 (workRoot ++ ['/'] ++ localpycos ++ ['/'] ++ p) q
        = workRoot ++ ['/'] ++ localpycos ++ ['/'] ++ p ++ ['/'] ++ q :=
      pathJoin2_std _ q hj1ne hj1e hq.2.1
    have hj2ne : workRoot ++ ['/'] ++ localpycos ++ ['/'] ++ p ++ ['/'] ++ q ≠ [] := by
      simp [List.append_eq_nil, hq.1]
    have hj2e : endsWithSlash (workRoot ++ ['/'] ++ localpycos ++ ['/'] ++ p ++ ['/'] ++ q)
        = false := by
      rw [endsWithSlash_append _ _ hq.1]
      exact hq.2.2
    have hrs : startsWithSlash (r ++ ext) = false := by
      rw [startsWithSlash_append_left _ _ hr.1]
      exact hr.2.1
    have hj3 := pathJoin2_std _ (r ++ ext) hj2ne hj2e hrs
    unfold redirectObjPath pathJoinList
    rw [hparts, hext, hbp]
    simp only [List.foldl]
    rw [hj1, hj2, hj3]
    simp [List.append_assoc]
  · have hparts : redirectParts nm2 obj2 = ([p2, q2], initTag) := by
      simp [redirectParts, hini, hsplit2]
    have hj1 : pathJoin2 (workRoot ++ ['/'] ++ localpycos) p2
        = workRoot ++ ['/'] ++ localpycos ++ ['/'] ++ p2 :=
      pathJoin2_std _ p2 hbpne hbpe hp2.2.1
    have hj1ne : workRoot ++ ['/'] ++ localpycos ++ ['/'] ++ p2 ≠ [] := by
      simp [List.append_eq_nil, hp2.1]
    have hj1e : endsWithSlash (workRoot ++ ['/'] ++ localpycos ++ ['/'] ++ p2) = false := by
      rw [endsWithSlash_append _ _ hp2.1]
      exact hp2.2.2
    have hj2 : pathJoin2 (workRoot ++ ['/'] ++ localpycos ++ ['/'] ++ p2) q2
        = workRoot ++ ['/'] ++ localpycos ++ ['/'] ++ p2 ++ ['/'] ++ q2 :=
      pathJoin2_std _ q2 hj1ne hj1e hq2.2.1
    have hj2ne : workRoot ++ ['/'] ++ localpycos ++ ['/'] ++ p2 ++ ['/'] ++ q2 ≠ [] := by
      simp [List.append_eq_nil, hq2.1]
    have hj2e : endsWithSlash (workRoot ++ ['/'] ++ localpycos ++ ['/'] ++ p2 ++ ['/'] ++ q2)
        = false := by
      rw [endsWithSlash_append _ _ hq2.1]
      exact hq2.2.2
    have hrs : startsWithSlash (initTag ++ ext2) = false := by
      rw [startsWithSlash_append_left _ _ (by decide : initTag ≠ [])]
      decide
    have hj3 := pathJoin2_std _ (initTag ++ ext2) hj2ne hj2e hrs
    unfold redirectObjPath pathJoinList
    rw [hparts, hext2, hbp]
    simp only [List.foldl]
    rw [hj1, hj2, hj3]
    simp [List.append_assoc]

/-- Witness for C5: the leaf module `pkg.sub.mod` with artifact suffix
`.pyc` is redirected to `/tmp/build/localpycos/pkg/sub/mod.pyc`. -/
theorem c5_witness :
    redirectObjPath (pathJoin2 (str "/tmp/build") localpycos) (str "pkg.sub.mod")
        (str "/ro/pkg/sub/mod.pyc")
      = str "/tmp/build" ++ ['/'] ++ localpycos ++ ['/'] ++ str "pkg" ++ ['/'] ++ str "sub"
          ++ ['/'] ++ str "mod" ++ str ".pyc" :=
  (c5_redirect_naming (str "/tmp/build") (str "pkg.sub.mod") (str "pkg.sub")
    (str "/ro/pkg/sub/mod.pyc") (str "/ro/pkg/sub/__init__.pyc") (str ".pyc") (str ".pyc")
    (str "pkg") (str "sub") (str "mod") (str "pkg") (str "sub")
    (by decide) (by decide) (by decide) (by decide) (by decide) (by decide)
    (by decide) (by decide) (by decide) (by decide) (by decide) (by decide)
    (by decide)).1

/-! ## Infrastructure for the rerun theorem -/

/-- Well-formed state: every recorded modification time is older than the
clock, so freshly written files are the newest on disk. -/
abbrev FS.wf (fs : FS) : Prop := ∀ pr ∈ fs.files, pr.2.mt < fs.clock

/-- No dot among the last four characters — true of every side-cache
directory path and false of every guessed artifact path, which ends in
`.pyX`. -/
def DF (p : Str) : Prop := '.' ∉ p.drop (p.length - 4)

/-- A dot-free string is dot-free on its tail. -/
theorem DF_of_not_mem {s : Str} (h : '.' ∉ s) : DF s :=
  fun hm => h (List.mem_of_mem_drop hm)

/-- Appending a dot-free component preserves tail-dot-freeness. -/
theorem DF_append (P s : Str) (hP : DF P) (hs : '.' ∉ s) : DF (P ++ s) := by
  intro hmem
  rw [List.drop_append_eq_append_drop] at hmem
  rcases List.mem_append.mp hmem with h1 | h2
  · have hge : P.length - 4 ≤ (P ++ s).length - 4 := by
      simp only [List.length_append]
      omega
    have hd : P.drop ((P ++ s).length - 4)
        = (P.drop (P.length - 4)).drop ((P ++ s).length - 4 - (P.length - 4)) := by
      rw [List.drop_drop]
      congr 1
      omega
    rw [hd] at h1
    exact hP (List.mem_of_mem_drop h1)
  · exact hs (List.mem_of_mem_drop h2)

/-- Appending a dot-free component of length at least four makes the tail
dot-free whatever the base was. -/
theorem DF_append_long (P s : Str) (hs : '.' ∉ s) (h4 : 4 ≤ s.length) : DF (P ++ s) := by
  intro hmem
  rw [List.drop_append_eq_append_drop] at hmem
  rcases List.mem_append.mp hmem with h1 | h2
  · have : P.drop ((P ++ s).length - 4) = [] := by
      apply List.drop_eq_nil_of_le
      simp only [List.length_append]
      omega
    rw [this] at h1
    exact absurd h1 (List.not_mem_nil _)
  · exact hs (List.mem_of_mem_drop h2)

/-- The cache base path `join(workpath, "localpycos")` is tail-dot-free. -/
theorem DF_basepath (wp : Str) : DF (pathJoin2 wp localpycos) := by
  unfold pathJoin2
  split
  · next hc => exact absurd hc (by decide)
  · split
    · exact DF_append_long wp localpycos (by decide) (by decide)
    · exact DF_append_long (wp ++ ['/']) localpycos (by decide) (by decide)

/-- The segments produced by splitting on dots contain no dot. -/
theorem splitDots_no_dot (nm : Str) : ∀ s ∈ splitDots nm, '.' ∉ s := by
  induction nm with
  | nil =>
    intro s hs
    simp only [splitDots, List.mem_singleton] at hs
    subst hs
    exact List.not_mem_nil _
  | cons c rest ih =>
    intro s hs
    unfold splitDots at hs
    by_cases hc : c = '.'
    · rw [if_pos hc] at hs
      rcases List.mem_cons.mp hs with h1 | h1
      · subst h1
        exact List.not_mem_nil _
      · exact ih s h1
    · rw [if_neg hc] at hs
      cases hsp : splitDots rest with
      | nil =>
        rw [hsp] at hs
        simp only [List.mem_singleton] at hs
        subst hs
        intro hd
        rcases List.mem_cons.mp hd with h1 | h1
        · exact hc h1.symm
        · exact absurd h1 (List.not_mem_nil _)
      | cons s0 ss =>
        rw [hsp] at hs
        rcases List.mem_cons.mp hs with h1 | h1
        · subst h1
          intro hd
          rcases List.mem_cons.mp hd with h2 | h2
          · exact hc h2.symm
          · exact ih s0 (hsp ▸ List.mem_cons_self s0 ss) h2
        · exact ih s (hsp ▸ List.mem_cons_of_mem s0 h1)

/-- The leading segments chosen for the redirect contain no dot. -/
theorem redirectParts_no_dot (nm objFnm : Str) :
    ∀ s ∈ (redirectParts nm objFnm).1, '.' ∉ s := by
  intro s hs
  unfold redirectParts at hs
  split at hs
  · exact splitDots_no_dot nm s hs
  · exact splitDots_no_dot nm s (List.dropLast_subset _ hs)

/-- Joining dot-free segments onto a tail-dot-free base stays
tail-dot-free. -/
theorem DF_pathJoinList (segs : List Str) :
    ∀ (bp : Str), DF bp → (∀ s ∈ segs, '.' ∉ s) → DF (pathJoinList bp segs) := by
  induction segs with
  | nil => intro bp hbp _; exact hbp
  | cons s rest ih =>
    intro bp hbp hsegs
    unfold pathJoinList
    simp only [List.foldl]
    apply ih (pathJoin2 bp s) ?_ (fun t ht => hsegs t (List.mem_cons_of_mem s ht))
    unfold pathJoin2
    split
    · exact DF_of_not_mem (hsegs s (List.mem_cons_self s rest))
    · split
      · exact DF_append bp s hbp (hsegs s (List.mem_cons_self s rest))
      · exact DF_append (bp ++ ['/']) s
          (DF_append bp ['/'] hbp (by decide)) (hsegs s (List.mem_cons_self s rest))

/-- The Boolean prefix test agrees with the prefix order. -/
theorem isPre_iff (a : Str) : ∀ (b : Str), isPre a b = true ↔ a <+: b := by
  induction a with
  | nil => intro b; simp [isPre]
  | cons x xs ih =>
    intro b
    cases b with
    | nil => simp [isPre]
    | cons y ys =>
      unfold isPre
      by_cases hxy : x = y
      · subst hxy
        simp [ih, List.cons_prefix_cons]
      · simp [hxy, List.cons_prefix_cons]

/-- A path that passes the `.py` suffix test decomposes as a stem plus
`['.', 'p', 'y']`. -/
theorem endsWithS_py_shape (p : Str) (h : endsWithS p pySuffix = true) :
    ∃ t, p = t ++ ['.', 'p', 'y'] := by
  unfold endsWithS at h
  rw [isPre_iff] at h
  have hsfx : pySuffix <:+ p := List.reverse_prefix.mp h
  obtain ⟨t, ht⟩ := hsfx
  exact ⟨t, ht.symm⟩

/-- A guessed artifact path `stem ++ ".py" ++ [x]` has a dot among its last
four characters. -/
theorem not_DF_py_obj (t : Str) (x : Char) : ¬ DF ((t ++ ['.', 'p', 'y']) ++ [x]) := by
  intro hdf
  apply hdf
  rw [List.append_assoc]
  have hlen : (t ++ (['.', 'p', 'y'] ++ [x])).length - 4 = t.length := by
    simp [List.length_append]
  rw [hlen, List.drop_left]
  simp

/-- The two artifact-suffix guesses differ. -/
theorem objSuffix_ne (cfg : Cfg) (s : Str) : s ++ objSuffix1 cfg ≠ s ++ objSuffix2 cfg := by
  unfold objSuffix1 objSuffix2
  cases cfg.optimize <;> intro h <;> exact absurd (List.append_cancel_left h) (by decide)

/-- Each artifact-suffix guess is one character, never a slash. -/
theorem objSuffix1_shape (cfg : Cfg) : ∃ x, objSuffix1 cfg = [x] ∧ x ≠ '/' := by
  unfold objSuffix1
  cases cfg.optimize
  · exact ⟨'c', rfl, by decide⟩
  · exact ⟨'o', rfl, by decide⟩

/-- Each fallback artifact-suffix guess is one character, never a slash. -/
theorem objSuffix2_shape (cfg : Cfg) : ∃ x, objSuffix2 cfg = [x] ∧ x ≠ '/' := by
  unfold objSuffix2
  cases cfg.optimize
  · exact ⟨'o', rfl, by decide⟩
  · exact ⟨'c', rfl, by decide⟩

/-- Looking up the path just written finds the fresh file. -/
theorem lookupFile_write_self (fs : FS) (dst : Str) (bs : List Nat) :
    lookupFile (writeFile fs dst bs).files dst = some ⟨bs, fs.clock⟩ := by
  simp [writeFile, lookupFile]

/-- Looking up a different path is unaffected by a write. -/
theorem lookupFile_write_ne (fs : FS) (dst p : Str) (bs : List Nat) (h : p ≠ dst) :
    lookupFile (writeFile fs dst bs).files p = lookupFile fs.files p := by
  simp [writeFile, lookupFile, h]

/-- Membership in the denied set after a write. -/
theorem mem_denied_write (fs : FS) (dst p : Str) (bs : List Nat) :
    p ∈ (writeFile fs dst bs).denied ↔ p ∈ fs.denied ∧ p ≠ dst := by
  simp [writeFile, List.mem_filter]

/-- The modification time of the freshly written path is the clock. -/
theorem mtime_write_self (fs : FS) (dst : Str) (bs : List Nat) :
    mtime (writeFile fs dst bs) dst = fs.clock := by
  have hd : dst ∉ (writeFile fs dst bs).denied := by
    rw [mem_denied_write]
    rintro ⟨-, h⟩
    exact h rfl
  simp [mtime, statMt, hd, lookupFile_write_self]

/-- The modification time of any other path is unaffected by a write. -/
theorem mtime_write_ne (fs : FS) (dst p : Str) (bs : List Nat) (h : p ≠ dst) :
    mtime (writeFile fs dst bs) p = mtime fs p := by
  have hd : p ∈ (writeFile fs dst bs).denied ↔ p ∈ fs.denied := by
    rw [mem_denied_write]
    exact ⟨fun hx => hx.1, fun hx => ⟨hx, h⟩⟩
  unfold mtime statMt
  rw [lookupFile_write_ne fs dst p bs h]
  by_cases hden : p ∈ fs.denied
  · rw [if_pos (hd.mpr hden), if_pos hden]
  · rw [if_neg (fun hx => hden (hd.mp hx)), if_neg hden]

/-- Reading the freshly written path yields the written bytes. -/
theorem readBytes_write_self (fs : FS) (dst : Str) (bs : List Nat) :
    readBytes (writeFile fs dst bs) dst = .ok bs := by
  have hd : dst ∉ (writeFile fs dst bs).denied := by
    rw [mem_denied_write]
    rintro ⟨-, h⟩
    exact h rfl
  simp [readBytes, hd, lookupFile_write_self]

/-- Existence of a different path is unaffected by a write. -/
theorem pathExistsF_write_ne (fs : FS) (dst p : Str) (bs : List Nat) (h : p ≠ dst) :
    pathExistsF (writeFile fs dst bs) p = pathExistsF fs p := by
  have hd : (p ∈ (writeFile fs dst bs).denied) ↔ (p ∈ fs.denied) := by
    rw [mem_denied_write]
    exact ⟨fun hx => hx.1, fun hx => ⟨hx, h⟩⟩
  have hdir : (writeFile fs dst bs).dirs = fs.dirs := rfl
  unfold pathExistsF
  rw [lookupFile_write_ne fs dst p bs h, hdir]
  congr 1
  exact decide_eq_decide.mpr (not_congr hd)

/-- The freshly written path exists. -/
theorem pathExistsF_write_self (fs : FS) (dst : Str) (bs : List Nat) :
    pathExistsF (writeFile fs dst bs) dst = true := by
  have hd : dst ∉ (writeFile fs dst bs).denied := by
    rw [mem_denied_write]
    rintro ⟨-, h⟩
    exact h rfl
  simp [pathExistsF, hd, lookupFile_write_self]

/-- In a well-formed state every modification time is at most the clock. -/
theorem mtime_le_clock (fs : FS) (p : Str) (hwf : FS.wf fs) : mtime fs p ≤ fs.clock := by
  have hlk : ∀ (l : List (Str × FileData)) (d : FileData),
      lookupFile l p = some d → (∀ pr ∈ l, pr.2.mt < fs.clock) → d.mt ≤ fs.clock := by
    intro l
    induction l with
    | nil => intro d hd _; exact absurd hd (by simp [lookupFile])
    | cons pr rest ih =>
      intro d hd hall
      obtain ⟨q, d0⟩ := pr
      unfold lookupFile at hd
      by_cases hpq : p = q
      · rw [if_pos hpq] at hd
        injection hd with hdd
        rw [← hdd]
        exact Nat.le_of_lt (hall (q, d0) (List.mem_cons_self _ _))
      · rw [if_neg hpq] at hd
        exact ih d hd (fun x hx => hall x (List.mem_cons_of_mem _ hx))
  unfold mtime statMt
  by_cases hden : p ∈ fs.denied
  · rw [if_pos hden]
    exact Nat.zero_le _
  · rw [if_neg hden]
    cases hd : lookupFile fs.files p with
    | none => exact Nat.zero_le _
    | some d => exact hlk fs.files d hd hwf

/-- All fields of the state except `dirs` are unchanged by `ensureDirF`. -/
theorem ensureDirF_fields (fs : FS) (d : Str) :
    (ensureDirF fs d).files = fs.files ∧ (ensureDirF fs d).denied = fs.denied ∧
      (ensureDirF fs d).unwritable = fs.unwritable ∧
      (ensureDirF fs d).badSyntax = fs.badSyntax ∧ (ensureDirF fs d).clock = fs.clock := by
  unfold ensureDirF makedirsF
  split
  · exact ⟨rfl, rfl, rfl, rfl, rfl⟩
  · split
    · exact ⟨rfl, rfl, rfl, rfl, rfl⟩
    · exact ⟨rfl, rfl, rfl, rfl, rfl⟩

/-- Stat is unaffected by directory creation. -/
theorem statMt_ensureDir (fs : FS) (d p : Str) :
    statMt (ensureDirF fs d) p = statMt fs p := by
  unfold statMt
  rw [(ensureDirF_fields fs d).1, (ensureDirF_fields fs d).2.1]

/-- Modification times are unaffected by directory creation. -/
theorem mtime_ensureDir (fs : FS) (d p : Str) :
    mtime (ensureDirF fs d) p = mtime fs p := by
  unfold mtime
  rw [statMt_ensureDir]

/-- File reads are unaffected by directory creation. -/
theorem readBytes_ensureDir (fs : FS) (d p : Str) :
    readBytes (ensureDirF fs d) p = readBytes fs p := by
  unfold readBytes
  rw [(ensureDirF_fields fs d).1, (ensureDirF_fields fs d).2.1]

/-- The staleness test is unaffected by directory creation. -/
theorem needsCompile_ensureDir (cfg : Cfg) (fs : FS) (d src obj : Str) :
    needsCompile cfg (ensureDirF fs d) src obj = needsCompile cfg fs src obj := by
  unfold needsCompile
  rw [mtime_ensureDir, mtime_ensureDir, readBytes_ensureDir]

/-- Writability is unaffected by directory creation. -/
theorem unwritableDst_ensureDir (fs : FS) (d dst : Str) :
    unwritableDst (ensureDirF fs d) dst = unwritableDst fs dst := by
  unfold unwritableDst
  rw [(ensureDirF_fields fs d).2.2.1]

/-- A failing compile still fails, identically, after directory creation. -/
theorem pyCompile_ensureDir_error (cfg : Cfg) (fs : FS) (d src dst : Str) (er : PErr)
    (h : pyCompile cfg fs src dst = .error er) :
    pyCompile cfg (ensureDirF fs d) src dst = .error er := by
  unfold pyCompile at h ⊢
  rw [(ensureDirF_fields fs d).1, (ensureDirF_fields fs d).2.1,
    (ensureDirF_fields fs d).2.2.2.1, unwritableDst_ensureDir] at *
  split_ifs at h ⊢ <;> simp_all

/-- Existence of other paths is unaffected by directory creation. -/
theorem pathExistsF_ensureDir_ne (fs : FS) (d p : Str) (h : p ≠ d) :
    pathExistsF (ensureDirF fs d) p = pathExistsF fs p := by
  unfold pathExistsF ensureDirF makedirsF
  split
  · rfl
  · split
    · rfl
    · simp [List.mem_cons, h]

/-- Ensuring a directory twice is the same as ensuring it once. -/
theorem ensureDirF_idem (fs : FS) (d : Str) :
    ensureDirF (ensureDirF fs d) d = ensureDirF fs d := by
  by_cases hex : pathExistsF fs d = true
  · unfold ensureDirF
    rw [if_pos hex, if_pos hex]
  · have h1 : ensureDirF fs d = makedirsF fs d := by
      unfold ensureDirF
      rw [if_neg hex]
    rw [h1]
    by_cases hd : d ∈ fs.dirs
    · have h2 : makedirsF fs d = fs := by
        unfold makedirsF
        rw [if_pos hd]
      rw [h2]
      unfold ensureDirF
      rw [if_neg hex, h2]
    · have h2 : makedirsF fs d = { fs with dirs := d :: fs.dirs } := by
        unfold makedirsF
        rw [if_neg hd]
      rw [h2]
      unfold ensureDirF
      split
      · rfl
      · next hne =>
        unfold makedirsF
        rw [if_pos (List.mem_cons_self d fs.dirs)]

/-- Path derivation for an artifact-shaped entry ignores the disk. -/
theorem derivePaths_artifact (cfg : Cfg) (fs : FS) (fnm : Str)
    (h : endsWithS fnm pySuffix = false) :
    derivePaths cfg fs fnm = (fnm.dropLast, fnm) := by
  simp [derivePaths, h]

/-- Path derivation when the first artifact guess exists. -/
theorem derivePaths_src_hit (cfg : Cfg) (fs : FS) (fnm : Str)
    (h : endsWithS fnm pySuffix = true)
    (hex : pathExistsF fs (fnm ++ objSuffix1 cfg) = true) :
    derivePaths cfg fs fnm = (fnm, fnm ++ objSuffix1 cfg) := by
  simp [derivePaths, h, hex]

/-- Path derivation when the first artifact guess is absent. -/
theorem derivePaths_src_miss (cfg : Cfg) (fs : FS) (fnm : Str)
    (h : endsWithS fnm pySuffix = true)
    (hex : pathExistsF fs (fnm ++ objSuffix1 cfg) = false) :
    derivePaths cfg fs fnm = (fnm, fnm ++ objSuffix2 cfg) := by
  simp [derivePaths, h, hex]

/-- If a destination extended by one non-slash character is unwritable,
so is the destination itself (unwritability is per directory). -/
theorem unwritableDst_append_char (fs : FS) (s : Str) (x : Char) (hx : x ≠ '/')
    (h : unwritableDst fs (s ++ [x]) = true) : unwritableDst fs s = true := by
  unfold unwritableDst at h ⊢
  rw [List.any_eq_true] at h ⊢
  obtain ⟨d, hd, hpre⟩ := h
  refine ⟨d, hd, ?_⟩
  rw [List.isPrefixOf_iff_prefix] at hpre ⊢
  obtain ⟨t, ht⟩ := hpre
  rcases List.eq_nil_or_concat t with rfl | ⟨L, b, rfl⟩
  · rw [List.append_nil] at ht
    have hlast : ((d ++ ['/']).getLast?) = ((s ++ [x]).getLast?) := by rw [ht]
    rw [List.getLast?_append, List.getLast?_append] at hlast
    simp only [List.getLast?_singleton, Option.or_some] at hlast
    injection hlast with he
    exact absurd he.symm hx
  · rw [List.concat_eq_append, ← List.append_assoc] at ht
    have hinj := List.append_inj' ht (by rfl : ([b] : Str).length = ([x] : Str).length)
    exact ⟨L, hinj.1⟩

/-- Case analysis of a compile attempt that failed with `IOError`. -/
theorem pyCompile_ioErr_cases (cfg : Cfg) (fs : FS) (src dst p : Str)
    (h : pyCompile cfg fs src dst = .error (.ioErr p)) :
    (src ∈ fs.denied ∨ (lookupFile fs.files src).isSome = false) ∨
      (src ∉ fs.denied ∧ (lookupFile fs.files src).isSome = true ∧ src ∉ fs.badSyntax ∧
        unwritableDst fs dst = true) := by
  unfold pyCompile at h
  by_cases h1 : src ∈ fs.denied
  · exact Or.inl (Or.inl h1)
  · rw [if_neg h1] at h
    by_cases h2 : (lookupFile fs.files src).isSome = false
    · exact Or.inl (Or.inr h2)
    · rw [if_neg h2] at h
      have h2t : (lookupFile fs.files src).isSome = true := by
        revert h2
        cases (lookupFile fs.files src).isSome <;> simp
      by_cases h3 : src ∈ fs.badSyntax
      · rw [if_pos h3] at h
        exact absurd h (by simp)
      · rw [if_neg h3] at h
        by_cases h4 : unwritableDst fs dst = true
        · exact Or.inr ⟨h1, h2t, h3, h4⟩
        · rw [if_neg h4] at h
          exact absurd h (by simp)

/-- Case analysis of a successful compile. -/
theorem pyCompile_ok_cases (cfg : Cfg) (fs : FS) (src dst : Str) (fsw : FS)
    (h : pyCompile cfg fs src dst = .ok fsw) :
    src ∉ fs.denied ∧ (lookupFile fs.files src).isSome = true ∧ src ∉ fs.badSyntax ∧
      unwritableDst fs dst = false ∧
      fsw = writeFile fs dst (cfg.magic ++ [0, 0, 0, 0]) := by
  unfold pyCompile at h
  by_cases h1 : src ∈ fs.denied
  · rw [if_pos h1] at h
    exact absurd h (by simp)
  · rw [if_neg h1] at h
    by_cases h2 : (lookupFile fs.files src).isSome = false
    · rw [if_pos h2] at h
      exact absurd h (by simp)
    · rw [if_neg h2] at h
      have h2t : (lookupFile fs.files src).isSome = true := by
        revert h2
        cases (lookupFile fs.files src).isSome <;> simp
      by_cases h3 : src ∈ fs.badSyntax
      · rw [if_pos h3] at h
        exact absurd h (by simp)
      · rw [if_neg h3] at h
        by_cases h4 : unwritableDst fs dst = true
        · rw [if_pos h4] at h
          exact absurd h (by simp)
        · rw [if_neg h4] at h
          have h4f : unwritableDst fs dst = false := by
            revert h4
            cases unwritableDst fs dst <;> simp
          refine ⟨h1, h2t, h3, h4f, ?_⟩
          injection h with hh
          exact hh.symm

/-- Rerunning an entry right after its artifact was successfully written
finds the artifact fresh and magic-matching and leaves everything
unchanged. -/
theorem resolveEntry_rerun_write (cfg : Cfg) (bp : Str) (fs : FS) (e : Entry) (src obj : Str)
    (hm : cfg.magic.length = 4) (hwf : FS.wf fs)
    (htyp : e.typ = pymodule)
    (hsrcobj : derivePaths cfg fs e.fnm = (src, obj)) :
    resolveEntry cfg bp (writeFile fs obj (cfg.magic ++ [0, 0, 0, 0])) e
      = .ok (⟨e.nm, obj, e.typ⟩, writeFile fs obj (cfg.magic ++ [0, 0, 0, 0]), 0, 0) := by
  have htake : ((cfg.magic ++ [0, 0, 0, 0]).take 4) = cfg.magic := by
    have h0 := List.take_left cfg.magic ([0, 0, 0, 0] : List Nat)
    rwa [hm] at h0
  have hnc2 : needsCompile cfg (writeFile fs obj (cfg.magic ++ [0, 0, 0, 0])) src obj
      = .ok false := by
    by_cases hso : src = obj
    · subst hso
      simp [needsCompile, mtime_write_self, readBytes_write_self, htake]
    · simp [needsCompile, mtime_write_self,
        mtime_write_ne fs obj src (cfg.magic ++ [0, 0, 0, 0]) hso,
        readBytes_write_self, htake, not_lt.mpr (mtime_le_clock fs src hwf)]
  have hder2 : derivePaths cfg (writeFile fs obj (cfg.magic ++ [0, 0, 0, 0])) e.fnm
      = (src, obj) := by
    by_cases hde : endsWithS e.fnm pySuffix = true
    · by_cases hex : pathExistsF fs (e.fnm ++ objSuffix1 cfg) = true
      · rw [derivePaths_src_hit cfg fs e.fnm hde hex] at hsrcobj
        have hs2 : e.fnm ++ objSuffix1 cfg = obj := congrArg Prod.snd hsrcobj
        have hex2 : pathExistsF (writeFile fs obj (cfg.magic ++ [0, 0, 0, 0]))
            (e.fnm ++ objSuffix1 cfg) = true := by
          rw [hs2]
          exact pathExistsF_write_self fs obj (cfg.magic ++ [0, 0, 0, 0])
        rw [derivePaths_src_hit cfg _ e.fnm hde hex2]
        exact hsrcobj
      · have hexf : pathExistsF fs (e.fnm ++ objSuffix1 cfg) = false := by
          revert hex
          cases pathExistsF fs (e.fnm ++ objSuffix1 cfg) <;> simp
        rw [derivePaths_src_miss cfg fs e.fnm hde hexf] at hsrcobj
        have hs2 : e.fnm ++ objSuffix2 cfg = obj := congrArg Prod.snd hsrcobj
        have hne : e.fnm ++ objSuffix1 cfg ≠ obj := by
          intro heq
          rw [← hs2] at heq
          exact objSuffix_ne cfg e.fnm heq
        have hex2 : pathExistsF (writeFile fs obj (cfg.magic ++ [0, 0, 0, 0]))
            (e.fnm ++ objSuffix1 cfg) = false := by
          rw [pathExistsF_write_ne fs obj _ _ hne]
          exact hexf
        rw [derivePaths_src_miss cfg _ e.fnm hde hex2]
        exact hsrcobj
    · have hdef : endsWithS e.fnm pySuffix = false := by
        revert hde
        cases endsWithS e.fnm pySuffix <;> simp
      rw [derivePaths_artifact cfg fs e.fnm hdef] at hsrcobj
      rw [derivePaths_artifact cfg _ e.fnm hdef]
      exact hsrcobj
  have hp1 : (derivePaths cfg (writeFile fs obj (cfg.magic ++ [0, 0, 0, 0])) e.fnm).1
      = src := by rw [hder2]
  have hp2 : (derivePaths cfg (writeFile fs obj (cfg.magic ++ [0, 0, 0, 0])) e.fnm).2
      = obj := by rw [hder2]
  simp [resolveEntry, htyp, hp1, hp2, hnc2]

/-- Path derivation is unaffected by creating the (tail-dot-free) cache
directory, because guessed artifact paths end in `.pyX`. -/
theorem derivePaths_ensureDir_df (cfg : Cfg) (fs : FS) (fnm src obj lp : Str)
    (hdflp : DF lp)
    (hsrcobj : derivePaths cfg fs fnm = (src, obj)) :
    derivePaths cfg (ensureDirF fs lp) fnm = (src, obj) := by
  by_cases hde : endsWithS fnm pySuffix = true
  · have hne : fnm ++ objSuffix1 cfg ≠ lp := by
      intro heq
      obtain ⟨t, ht⟩ := endsWithS_py_shape fnm hde
      obtain ⟨x, hx1, -⟩ := objSuffix1_shape cfg
      have hdf1 : DF (fnm ++ objSuffix1 cfg) := heq ▸ hdflp
      rw [ht, hx1] at hdf1
      exact not_DF_py_obj t x hdf1
    have hstable : pathExistsF (ensureDirF fs lp) (fnm ++ objSuffix1 cfg)
        = pathExistsF fs (fnm ++ objSuffix1 cfg) :=
      pathExistsF_ensureDir_ne fs lp _ hne
    by_cases hex : pathExistsF fs (fnm ++ objSuffix1 cfg) = true
    · rw [derivePaths_src_hit cfg fs fnm hde hex] at hsrcobj
      rw [derivePaths_src_hit cfg _ fnm hde (hstable.trans hex)]
      exact hsrcobj
    · have hexf : pathExistsF fs (fnm ++ objSuffix1 cfg) = false := by
        revert hex
        cases pathExistsF fs (fnm ++ objSuffix1 cfg) <;> simp
      rw [derivePaths_src_miss cfg fs fnm hde hexf] at hsrcobj
      rw [derivePaths_src_miss cfg _ fnm hde (hstable.trans hexf)]
      exact hsrcobj
  · have hdef : endsWithS fnm pySuffix = false := by
      revert hde
      cases endsWithS fnm pySuffix <;> simp
    rw [derivePaths_artifact cfg fs fnm hdef] at hsrcobj
    rw [derivePaths_artifact cfg _ fnm hdef]
    exact hsrcobj

/-- Rerunning an entry that was redirected to an up-to-date cache artifact
repeats the failing in-place attempt, redirects again to the same path,
and changes nothing. -/
theorem resolveEntry_rerun_redirect (cfg : Cfg) (bp : Str) (fs : FS) (e : Entry)
    (src obj p : Str)
    (hdf : DF bp)
    (htyp : e.typ = pymodule)
    (hsrcobj : derivePaths cfg fs e.fnm = (src, obj))
    (hnc : needsCompile cfg fs src obj = .ok true)
    (hpc : pyCompile cfg fs src obj = .error (.ioErr p))
    (hnc2 : needsCompile cfg (ensureDirF fs (pathJoinList bp (redirectParts e.nm obj).1)) src
        (redirectObjPath bp e.nm obj) = .ok false) :
    resolveEntry cfg bp (ensureDirF fs (pathJoinList bp (redirectParts e.nm obj).1)) e
      = .ok (⟨e.nm, redirectObjPath bp e.nm obj, e.typ⟩,
          ensureDirF fs (pathJoinList bp (redirectParts e.nm obj).1), 1, 0) := by
  have hdflp : DF (pathJoinList bp (redirectParts e.nm obj).1) :=
    DF_pathJoinList _ bp hdf (redirectParts_no_dot e.nm obj)
  have hder2 := derivePaths_ensureDir_df cfg fs e.fnm src obj _ hdflp hsrcobj
  have hp1 : (derivePaths cfg (ensureDirF fs (pathJoinList bp (redirectParts e.nm obj).1))
      e.fnm).1 = src := by rw [hder2]
  have hp2 : (derivePaths cfg (ensureDirF fs (pathJoinList bp (redirectParts e.nm obj).1))
      e.fnm).2 = obj := by rw [hder2]
  have hnc1 : needsCompile cfg (ensureDirF fs (pathJoinList bp (redirectParts e.nm obj).1))
      src obj = .ok true := by
    rw [needsCompile_ensureDir]
    exact hnc
  have hpc1 : pyCompile cfg (ensureDirF fs (pathJoinList bp (redirectParts e.nm obj).1))
      src obj = .error (.ioErr p) :=
    pyCompile_ensureDir_error cfg fs _ src obj _ hpc
  unfold resolveEntry
  rw [if_pos htyp, hp1, hp2]
  dsimp only
  rw [hnc1]
  unfold compileStep
  rw [hpc1]
  unfold redirectStep
  dsimp only
  rw [ensureDirF_idem, hnc2]

/-- The fallback compile of line 258 re-targets the ORIGINAL path, which
shares the directory of the failed in-place destination: if the in-place
attempt failed with `IOError`, the fallback attempt cannot succeed. -/
theorem nested_compile_impossible (cfg : Cfg) (fs : FS) (fnm src obj lp p : Str) (fsn : FS)
    (hsrcobj : derivePaths cfg fs fnm = (src, obj))
    (hpc : pyCompile cfg fs src obj = .error (.ioErr p))
    (hpc2 : pyCompile cfg (ensureDirF fs lp) src fnm = .ok fsn) : False := by
  have hok := pyCompile_ok_cases cfg _ src fnm fsn hpc2
  rw [(ensureDirF_fields fs lp).1, (ensureDirF_fields fs lp).2.1,
    (ensureDirF_fields fs lp).2.2.2.1, unwritableDst_ensureDir] at hok
  rcases pyCompile_ioErr_cases cfg fs src obj p hpc with (hden | hlk) | ⟨-, -, -, hunw⟩
  · exact hok.1 hden
  · rw [hok.2.1] at hlk
    exact Bool.noConfusion hlk
  · have hfnm : unwritableDst fs fnm = true := by
      by_cases hde : endsWithS fnm pySuffix = true
      · by_cases hex : pathExistsF fs (fnm ++ objSuffix1 cfg) = true
        · rw [derivePaths_src_hit cfg fs fnm hde hex] at hsrcobj
          have hobj : fnm ++ objSuffix1 cfg = obj := congrArg Prod.snd hsrcobj
          obtain ⟨x, hx, hxs⟩ := objSuffix1_shape cfg
          rw [← hobj, hx] at hunw
          exact unwritableDst_append_char fs fnm x hxs hunw
        · have hexf : pathExistsF fs (fnm ++ objSuffix1 cfg) = false := by
            revert hex
            cases pathExistsF fs (fnm ++ objSuffix1 cfg) <;> simp
          rw [derivePaths_src_miss cfg fs fnm hde hexf] at hsrcobj
          have hobj : fnm ++ objSuffix2 cfg = obj := congrArg Prod.snd hsrcobj
          obtain ⟨x, hx, hxs⟩ := objSuffix2_shape cfg
          rw [← hobj, hx] at hunw
          exact unwritableDst_append_char fs fnm x hxs hunw
      · have hdef : endsWithS fnm pySuffix = false := by
          revert hde
          cases endsWithS fnm pySuffix <;> simp
        rw [derivePaths_artifact cfg fs fnm hdef] at hsrcobj
        have hobj : fnm = obj := congrArg Prod.snd hsrcobj
        rw [← hobj] at hunw
        exact hunw
    rw [hok.2.2.2.1] at hfnm
    exact Bool.noConfusion hfnm
/-- Componentwise consequences of equal successful results. -/
theorem okTuple_parts {A : Entry} {B : FS} {u v : Nat} {e2 : Entry} {fs1 : FS} {c s : Nat}
    (h : (Except.ok (A, B, u, v) : Except Err (Entry × FS × Nat × Nat)) = .ok (e2, fs1, c, s)) :
    A = e2 ∧ B = fs1 ∧ u = c ∧ v = s := by
  injection h with hh
  exact ⟨congrArg (fun x => x.1) hh, congrArg (fun x => x.2.1) hh,
    congrArg (fun x => x.2.2.1) hh, congrArg (fun x => x.2.2.2) hh⟩

/-- Rerunning one entry after a successful resolution reproduces the same
output entry, leaves the state unchanged, and performs no successful
compilation. -/
theorem resolveEntry_rerun (cfg : Cfg) (bp : Str) (fs : FS) (e : Entry)
    (e2 : Entry) (fs1 : FS) (c s : Nat)
    (hm : cfg.magic.length = 4)
    (hwf : FS.wf fs)
    (hdf : DF bp)
    (h : resolveEntry cfg bp fs e = .ok (e2, fs1, c, s)) :
    ∃ c2, resolveEntry cfg bp fs1 e = .ok (e2, fs1, c2, 0) := by
  by_cases htyp : e.typ = pymodule
  case neg =>
    rw [resolveEntry_noncode cfg bp fs e htyp] at h
    obtain ⟨he, hfs, -, -⟩ := okTuple_parts h
    subst he
    subst hfs
    exact ⟨0, resolveEntry_noncode cfg bp fs e htyp⟩
  case pos =>
    rcases hsrcobj : derivePaths cfg fs e.fnm with ⟨src, obj⟩
    have hp1 : (derivePaths cfg fs e.fnm).1 = src := by rw [hsrcobj]
    have hp2 : (derivePaths cfg fs e.fnm).2 = obj := by rw [hsrcobj]
    unfold resolveEntry at h
    rw [if_pos htyp, hp1, hp2] at h
    dsimp only at h
    cases hnc : needsCompile cfg fs src obj with
    | error er =>
      rw [hnc] at h
      exact absurd h (by simp)
    | ok b =>
      rw [hnc] at h
      cases b with
      | false =>
        dsimp only at h
        obtain ⟨he, hfs, -, -⟩ := okTuple_parts h
        subst he
        subst hfs
        exact ⟨0, by simp [resolveEntry, htyp, hp1, hp2, hnc]⟩
      | true =>
        dsimp only at h
        unfold compileStep at h
        cases hpc : pyCompile cfg fs src obj with
        | ok fsw =>
          rw [hpc] at h
          dsimp only at h
          obtain ⟨he, hfs, -, -⟩ := okTuple_parts h
          subst he
          subst hfs
          have hfsw := (pyCompile_ok_cases cfg fs src obj fsw hpc).2.2.2.2
          refine ⟨0, ?_⟩
          rw [hfsw]
          exact resolveEntry_rerun_write cfg bp fs e src obj hm hwf htyp hsrcobj
        | error pe =>
          cases pe with
          | synErr q =>
            rw [hpc] at h
            dsimp only at h
            exact absurd h (by simp)
          | ioErr q =>
            rw [hpc] at h
            dsimp only at h
            unfold redirectStep at h
            dsimp only at h
            cases hnc2 : needsCompile cfg
                (ensureDirF fs (pathJoinList bp (redirectParts e.nm obj).1)) src
                (redirectObjPath bp e.nm obj) with
            | error er =>
              rw [hnc2] at h
              exact absurd h (by simp)
            | ok b2 =>
              rw [hnc2] at h
              cases b2 with
              | true =>
                dsimp only at h
                cases hpc2 : pyCompile cfg
                    (ensureDirF fs (pathJoinList bp (redirectParts e.nm obj).1)) src e.fnm with
                | ok fsn =>
                  exact (nested_compile_impossible cfg fs e.fnm src obj _ q fsn
                    hsrcobj hpc hpc2).elim
                | error pe2 =>
                  rw [hpc2] at h
                  cases pe2 with
                  | ioErr q2 =>
                    dsimp only at h
                    exact absurd h (by simp)
                  | synErr q2 =>
                    dsimp only at h
                    exact absurd h (by simp)
              | false =>
                dsimp only at h
                obtain ⟨he, hfs, -, -⟩ := okTuple_parts h
                subst he
                subst hfs
                exact ⟨1, resolveEntry_rerun_redirect cfg bp fs e src obj q
                  hdf htyp hsrcobj hnc hpc hnc2⟩

/-- The loop on a one-entry manifest is that entry's resolution. -/
theorem compileGo_single (cfg : Cfg) (bp : Str) (e : Entry) (fs : FS) :
    compileGo cfg bp [e] fs
      = match resolveEntry cfg bp fs e with
        | .error er => .error er
        | .ok (e2, fs2, c1, s1) => .ok ([e2], fs2, c1, s1) := by
  unfold compileGo
  cases hre : resolveEntry cfg bp fs e with
  | error er => rfl
  | ok r =>
    obtain ⟨e2, fs2, c1, s1⟩ := r
    dsimp only
    simp [compileGo]

/-- C2 (amended, theorem): for a single-entry manifest, a second run of
`compile_py_files` right after a successful run returns the identical
output manifest, leaves the file system unchanged, and performs ZERO
SUCCESSFUL compilations — though it may repeat a failing in-place
compiler invocation before redirecting. -/
theorem c2_amended_single_entry_rerun (cfg : Cfg) (e : Entry) (wp : Str) (fs : FS)
    (out : List Entry) (fs1 : FS) (c s : Nat)
    (hm : cfg.magic.length = 4)
    (hwf : FS.wf fs)
    (h : compile_py_files cfg [e] wp fs = .ok (out, fs1, c, s)) :
    ∃ c2, compile_py_files cfg [e] wp fs1 = .ok (out, fs1, c2, 0) := by
  rw [compile_py_files, compileGo_single] at h
  cases hre : resolveEntry cfg (pathJoin2 wp localpycos) fs e with
  | error er =>
    rw [hre] at h
    exact absurd h (by simp)
  | ok r =>
    obtain ⟨e2, fs2, c1, s1⟩ := r
    rw [hre] at h
    dsimp only at h
    injection h with hh
    have hout : [e2] = out := congrArg (fun x => x.1) hh
    have hfs : fs2 = fs1 := congrArg (fun x => x.2.1) hh
    subst hout
    subst hfs
    obtain ⟨c2, hr2⟩ := resolveEntry_rerun cfg (pathJoin2 wp localpycos) fs e e2 fs2 c1 s1
      hm hwf (DF_basepath wp) hre
    refine ⟨c2, ?_⟩
    rw [compile_py_files, compileGo_single, hr2]

/-- Witness for the amended C2 at the populated-side-cache scenario: the
first run succeeds with one failed invocation and no state change, and
the theorem yields the second run's identical result with zero successful
compilations. -/
theorem c2_amended_witness :
    ∃ c2, compile_py_files cfgStd [⟨str "a.b", str "/ro/a/b.py", pymodule⟩]
        (str "/tmp/build") cacheFs
      = .ok ([⟨str "a.b", str "/tmp/build/localpycos/a/b.pyo", pymodule⟩], cacheFs, c2, 0) :=
  c2_amended_single_entry_rerun cfgStd ⟨str "a.b", str "/ro/a/b.py", pymodule⟩
    (str "/tmp/build") cacheFs [⟨str "a.b", str "/tmp/build/localpycos/a/b.pyo", pymodule⟩]
    cacheFs 1 0 (by decide) (by decide) rfl
